import Mathlib

/-!
# Formal model of the webRTC-next-app signaling / presence / transport / chat core

This file gives a shallow embedding, in Lean 4, of the core of the
`webRTC-next-app` repository:

* the server-side presence store and signaling handlers
  (`src/app/api/socket/route.js`): rooms, sessions, TTL sweep,
  `join-room` / `get-room-users` / `leave-room` / `ping`;
* the client-side resilient transport (`src/store/socket.js`):
  `emit("join-room")`, the polling diff loop, reconnection backoff,
  `disconnect`, and the `on` / `off` / `trigger` listener registry;
* the connection orchestrator of the room page (`handleUserConnected`
  and the call `stream` / `close` handlers);
* the chat hook (`useChat`): `addMessage`, `sendMessage`,
  `handleIncomingMessage` and the data-channel initiator election.

JavaScript `Map`s are modelled as insertion-ordered association lists
(`List (String × β)`) whose keys are unique by construction, matching
`Map` semantics: `set` on an existing key updates in place, `set` on a
new key appends, `delete` removes the entry.  Timestamps are `Nat`
milliseconds; `now - lastSeen > ttl` is `Nat` subtraction, which agrees
with the JS comparison on all inputs with `lastSeen ≤ now` and is also
false (like the JS comparison) when `lastSeen > now` by a small margin.
-/

namespace WebRTCApp

/-! ## Association-list helpers with JS `Map` semantics -/

/-- `Map.get k`: first value bound to key `k` (keys are unique in a `Map`,
so "first" is "the" binding). -/
def alookup {β : Type} (k : String) : List (String × β) → Option β
  | [] => none
  | (k', v) :: rest => if k' = k then some v else alookup k rest

/-- `Map.set k v`: update the binding in place if the key is present,
otherwise append a new binding (insertion order preserved). -/
def aset {β : Type} (k : String) (v : β) : List (String × β) → List (String × β)
  | [] => [(k, v)]
  | (k', v') :: rest => if k' = k then (k, v) :: rest else (k', v') :: aset k v rest

/-- `Map.delete k`: remove the (unique) binding for `k` if present. -/
def aerase {β : Type} (k : String) : List (String × β) → List (String × β)
  | [] => []
  | (k', v') :: rest => if k' = k then rest else (k', v') :: aerase k rest

/-- The keys of an association list, in order. -/
def akeys {β : Type} (l : List (String × β)) : List String := l.map Prod.fst

/-- Truthiness of a JS string-or-null value: `null`/`undefined` and the
empty string are falsy. -/
def strTruthy : Option String → Bool
  | none => false
  | some s => s ≠ ""

/-! ## Server-side presence store (`src/app/api/socket/route.js`) -/

/-- One entry of `room.users`: `{ id, sessionId, joinedAt }`. -/
structure Member where
  id : String
  sessionId : String
  joinedAt : Nat
deriving DecidableEq, Repr

/-- One entry of `userSessions`: `{ userId, roomId, lastSeen }`. -/
structure Session where
  userId : String
  roomId : String
  lastSeen : Nat
deriving DecidableEq, Repr

/-- The module-level mutable state of `route.js`: the `rooms` map
(room id ↦ `{ users }`) and the `userSessions` map (session id ↦ session). -/
structure ServerState where
  rooms : List (String × List Member)
  sessions : List (String × Session)
deriving DecidableEq, Repr

/-- The empty store (module initialization). -/
def ServerState.init : ServerState := ⟨[], []⟩

/-- TTL from `cleanupOldSessions`: five minutes in milliseconds. -/
def fiveMinutes : Nat := 5 * 60 * 1000

/-- Removing a departed/expired user from a room:
`room.users = room.users.filter(u => u.id !== userId)` followed by
`if (room.users.length === 0) rooms.delete(roomId)`.  A missing room is
left untouched (the callers guard with `rooms.has(roomId)`). -/
def removeUserFromRooms (roomId userId : String)
    (rooms : List (String × List Member)) : List (String × List Member) :=
  match alookup roomId rooms with
  | none => rooms
  | some users =>
    let users' := users.filter (fun m => m.id ≠ userId)
    if users'.isEmpty then aerase roomId rooms else aset roomId users' rooms

/-- The body of the `for (const [sessionId, session] of userSessions)` loop
of `cleanupOldSessions`, processed entry by entry.  A JS `Map` permits
deleting the entry under iteration, so the loop is equivalent to this
structural recursion over the entry sequence: an expired entry removes its
user from its room (the `session.roomId &&` truthiness guard included) and
is dropped; an unexpired entry is kept.  Returns (surviving sessions,
updated rooms). -/
def cleanupGo (now : Nat) : List (String × Session) → List (String × List Member) →
    List (String × Session) × List (String × List Member)
  | [], rooms => ([], rooms)
  | (sid, s) :: rest, rooms =>
    if now - s.lastSeen > fiveMinutes then
      cleanupGo now rest
        (if s.roomId ≠ "" then removeUserFromRooms s.roomId s.userId rooms else rooms)
    else
      ((sid, s) :: (cleanupGo now rest rooms).1, (cleanupGo now rest rooms).2)

/-- `cleanupOldSessions` (the 60-second sweep): remove every session with
`now - lastSeen > fiveMinutes`, cascading member removal and empty-room
deletion. -/
def cleanupOldSessions (now : Nat) (st : ServerState) : ServerState :=
  ⟨(cleanupGo now st.sessions st.rooms).2, (cleanupGo now st.sessions st.rooms).1⟩

/-- Replace the first member whose `id` matches (the
`room.users[existingUserIndex] = {...}` branch of `join-room`). -/
def replaceFirstMember (userId : String) (nm : Member) : List Member → List Member
  | [] => []
  | m :: rest => if m.id = userId then nm :: rest else m :: replaceFirstMember userId nm rest

/-- Response body of a successful `join-room`. -/
structure JoinResp where
  sessionId : String
  roomUsers : List String
deriving DecidableEq, Repr

/-- `GET ?action=join-room` (validation already passed): create a fresh
session, create the room if absent, then replace the member entry in place
if `userId` is already present (idempotent rejoin) or push a new one, and
answer with the ids of *all* members of the updated room. -/
def joinRoom (st : ServerState) (roomId userId newSessionId : String) (now : Nat) :
    ServerState × JoinResp :=
  let sessions' := aset newSessionId ⟨userId, roomId, now⟩ st.sessions
  let users := (alookup roomId st.rooms).getD []
  let nm : Member := ⟨userId, newSessionId, now⟩
  let users' := if users.any (fun m => m.id = userId)
    then replaceFirstMember userId nm users
    else users ++ [nm]
  let rooms' := aset roomId users' st.rooms
  (⟨rooms', sessions'⟩, ⟨newSessionId, users'.map Member.id⟩)

/-- `GET ?action=get-room-users`: a missing room answers `{users: []}`. -/
def getRoomUsers (st : ServerState) (roomId : String) : List String :=
  match alookup roomId st.rooms with
  | none => []
  | some users => users.map Member.id

/-- `GET ?action=leave-room` (validation already passed): drop the member
from the room (deleting the room when it empties), then delete the *first*
session matching this user and room — the loop `break`s after one
deletion, so further matching sessions survive. -/
def eraseFirstSession (userId roomId : String) :
    List (String × Session) → List (String × Session)
  | [] => []
  | (sid, s) :: rest =>
    if s.userId = userId ∧ s.roomId = roomId then rest
    else (sid, s) :: eraseFirstSession userId roomId rest

/-- `leave-room` handler body. -/
def leaveRoom (st : ServerState) (roomId userId : String) : ServerState :=
  let rooms' := if (alookup roomId st.rooms).isSome
    then removeUserFromRooms roomId userId st.rooms
    else st.rooms
  ⟨rooms', eraseFirstSession userId roomId st.sessions⟩

/-- `ping` handler body (shared by `GET` and `POST`): a truthy session id
that is found refreshes `lastSeen` and answers 200; *both* a falsy/missing
session id and an unknown session id fall through to the single
`404 Session not found` response. -/
def pingTouch (st : ServerState) (sessionId : Option String) (now : Nat) :
    ServerState × Nat :=
  match sessionId with
  | some sid =>
    if sid ≠ "" then
      match alookup sid st.sessions with
      | some s => (⟨st.rooms, aset sid ⟨s.userId, s.roomId, now⟩ st.sessions⟩, 200)
      | none => (st, 404)
    else (st, 404)
  | none => (st, 404)

/-- The HTTP status produced by the `GET` dispatcher for each action, with
the raw (possibly absent) query parameters.  `Response.json` without an
explicit status is 200. -/
def getStatus (st : ServerState) (action roomId userId sessionId : Option String)
    (now : Nat) : Nat :=
  match action with
  | some "join-room" => if strTruthy roomId ∧ strTruthy userId then 200 else 400
  | some "get-room-users" => if strTruthy roomId then 200 else 400
  | some "leave-room" => if strTruthy roomId ∧ strTruthy userId then 200 else 400
  | some "ping" => (pingTouch st sessionId now).2
  | _ => 400

/-! ### Presence-store operation sequences (for the `list_members` invariant) -/

/-- A presence-store operation: a `join-room`, a `leave-room`, or a run of
the `cleanupOldSessions` sweep at a given time. -/
inductive POp where
  | join (roomId userId sessionId : String) (now : Nat)
  | leave (roomId userId : String)
  | sweep (now : Nat)
deriving DecidableEq, Repr

/-- Apply one presence operation to the store. -/
def applyPOp (st : ServerState) : POp → ServerState
  | .join r u sid now => (joinRoom st r u sid now).1
  | .leave r u => leaveRoom st r u
  | .sweep now => cleanupOldSessions now st

/-- Run a sequence of presence operations. -/
def runPOps (st : ServerState) : List POp → ServerState
  | [] => st
  | op :: ops => runPOps (applyPOp st op) ops

/-- `u` is listed as a member of room `r` (what `get-room-users`
reports). -/
def isMember (st : ServerState) (r u : String) : Bool :=
  (getRoomUsers st r).contains u

/-- The (room id, participant id) pair bound by a session entry. -/
def sessionPair (p : String × Session) : String × String :=
  (p.2.roomId, p.2.userId)

/-- `u` has some session in the table for room `r`. -/
def hasSessionFor (st : ServerState) (r u : String) : Bool :=
  st.sessions.any (fun p => p.2.roomId = r ∧ p.2.userId = u)

/-- `u` has a session for room `r` that is unexpired at time `now`
(within the five-minute TTL). -/
def hasUnexpiredSessionFor (st : ServerState) (r u : String) (now : Nat) : Bool :=
  st.sessions.any
    (fun p => p.2.roomId = r ∧ p.2.userId = u ∧ ¬ now - p.2.lastSeen > fiveMinutes)

/-- Legality of an operation sequence, mirroring what the HTTP front end
guarantees and what "no rejoin while present" means: a `join` only fires
for a truthy room id, for a participant not currently listed in that room,
and with a fresh session id (`session_${Date.now()}_${random}`). `leave`
and `sweep` are unconstrained. -/
def legalOps (st : ServerState) : List POp → Bool
  | [] => true
  | op :: ops =>
    (match op with
     | .join r u sid _ =>
       r ≠ "" && isMember st r u = false && alookup sid st.sessions = none
     | _ => true) && legalOps (applyPOp st op) ops

/-- `u` is listed as a member of room `r` in a rooms map (the Prop the
invariant proofs work with). -/
def MemberIn (rooms : List (String × List Member)) (r u : String) : Prop :=
  ∃ ms, alookup r rooms = some ms ∧ u ∈ ms.map Member.id

/-- The (room id, participant id) pairs bound by a session table, in
order. -/
def sessPairs (sessions : List (String × Session)) : List (String × String) :=
  sessions.map sessionPair

/-- The well-formedness invariant the presence store maintains along any
legal operation sequence: room keys are unique, each room's member ids are
unique, the sessions bind pairwise-distinct (room, user) pairs with truthy
room ids, and the member listing agrees exactly with the session table. -/
structure StoreInv (st : ServerState) : Prop where
  roomsKeysNodup : (akeys st.rooms).Nodup
  membersNodup : ∀ p ∈ st.rooms, (p.2.map Member.id).Nodup
  pairsNodup : (sessPairs st.sessions).Nodup
  roomIdsNe : ∀ p ∈ st.sessions, p.2.roomId ≠ ""
  corr : ∀ r u, MemberIn st.rooms r u ↔ (r, u) ∈ sessPairs st.sessions

/-! ## Client-side resilient transport (`src/store/socket.js`) -/

/-- The synthetic events an `APISocket` can `trigger`, with their payloads
(only the payloads the claims need are carried). -/
inductive Ev where
  | connecting
  | connect
  | joinedRoom (roomId : String)
  | userConnected (userId : String)
  | userLeave (userId : String)
  | connectError
  | disconnected
  | reconnectAttempt (n : Nat)
  | reconnectFailed
deriving DecidableEq, Repr

/-- First-occurrence deduplication with a "seen" accumulator. -/
def firstDedupGo (seen : List String) : List String → List String
  | [] => []
  | x :: xs =>
    if x ∈ seen then firstDedupGo seen xs
    else x :: firstDedupGo (x :: seen) xs

/-- First-occurrence deduplication: the iteration order of
`new Set(list)`. -/
def firstDedup (l : List String) : List String := firstDedupGo [] l

/-- One successful diff of the polling loop, given the previous snapshot
(`this.lastKnownUsers || []`) and the freshly fetched `data.users`: a
`user-connected` for every id in the current set but not the previous one,
then a `user-leave` for every id in the previous set but not the current
one, both skipping the local id. -/
def pollDiffEvents (selfId : String) (prevList currList : List String) : List Ev :=
  ((firstDedup currList).filter
      (fun u => ¬ u ∈ prevList ∧ u ≠ selfId)).map Ev.userConnected
  ++ ((firstDedup prevList).filter
      (fun u => ¬ u ∈ currList ∧ u ≠ selfId)).map Ev.userLeave

/-- The part of the polling state the diff depends on: `lastKnownUsers`
(`undefined` until the first successful fetch). -/
structure PollState where
  lastKnownUsers : Option (List String)
deriving DecidableEq, Repr

/-- One poll tick.  `fetched = some users` is a tick whose fetch succeeded
and carried a `users` field: it emits the diff and overwrites
`lastKnownUsers`.  `fetched = none` is a failed tick (network error, or a
body with no `users` field): no events, and the last known snapshot is
left unchanged (the `catch` branch only calls `handleReconnect`). -/
def pollTick (selfId : String) (st : PollState) (fetched : Option (List String)) :
    PollState × List Ev :=
  match fetched with
  | none => (st, [])
  | some users =>
    (⟨some users⟩, pollDiffEvents selfId (st.lastKnownUsers.getD []) users)

/-- Run a sequence of poll ticks, concatenating the emitted events. -/
def runPolls (selfId : String) (st : PollState) :
    List (Option (List String)) → PollState × List Ev
  | [] => (st, [])
  | t :: ts =>
    let (st', evs) := pollTick selfId st t
    let (st'', evs') := runPolls selfId st' ts
    (st'', evs ++ evs')

/-- Replay `user-connected` / `user-leave` events against a set of ids
(other events do not touch membership). -/
def replay (s : Finset String) : List Ev → Finset String
  | [] => s
  | Ev.userConnected u :: rest => replay (insert u s) rest
  | Ev.userLeave u :: rest => replay (s.erase u) rest
  | _ :: rest => replay s rest

/-- The last successful snapshot of a tick sequence, if any. -/
def lastSnapshot : List (Option (List String)) → Option (List String)
  | [] => none
  | t :: ts => match lastSnapshot ts with
    | some s => some s
    | none => t

/-- The instance fields of `APISocket` relevant to connection lifecycle,
plus two specification-level observations: `pendingReconnect` records that
a `handleReconnect` `setTimeout` has been scheduled and not yet fired (the
code never stores the timer handle, so nothing can cancel it), and
`emitted` is the ordered log of synthetic events `trigger`ed so far. -/
structure TransportState where
  roomId : Option String := none
  userId : Option String := none
  sessionId : Option String := none
  isConnected : Bool := false
  isConnecting : Bool := false
  connectionStatus : String := "disconnected"
  reconnectAttempts : Nat := 0
  pollingActive : Bool := false
  pendingReconnect : Bool := false
  emitted : List Ev := []
deriving DecidableEq, Repr

/-- `this.trigger(event, ...)`, viewed as appending to the event log. -/
def TransportState.trig (st : TransportState) (e : Ev) : TransportState :=
  { st with emitted := st.emitted ++ [e] }

/-- A fresh `new APISocket()`. -/
def TransportState.mk0 : TransportState := {}

/-- `maxReconnectAttempts`. -/
def maxReconnectAttempts : Nat := 5

/-- `emit("join-room", roomId, userId)`: record the ids, enter
`connecting` and trigger `connecting`; then, depending on the join
response (`none` models a failed fetch / `success: false`), either record
the session id, start polling, trigger `connect` and `joined-room`, and
trigger one `user-connected` per returned room user other than the local
id — or trigger `connect_error` and leave polling stopped. -/
def emitJoinRoom (st : TransportState) (roomId userId : String)
    (joinResult : Option JoinResp) : TransportState :=
  let st1 := { st with roomId := some roomId, userId := some userId,
                       isConnecting := true, connectionStatus := "connecting" }
  let st2 := st1.trig Ev.connecting
  match joinResult with
  | some resp =>
    let st3 := { st2 with sessionId := some resp.sessionId,
                          isConnected := true, isConnecting := false,
                          connectionStatus := "connected",
                          reconnectAttempts := 0, pollingActive := true }
    let st4 := (st3.trig Ev.connect).trig (Ev.joinedRoom roomId)
    (resp.roomUsers.filter (fun u => u ≠ userId)).foldl
      (fun acc u => acc.trig (Ev.userConnected u)) st4
  | none =>
    ({ st2 with isConnecting := false, connectionStatus := "error" }).trig
      Ev.connectError

/-- `handleReconnect()`: at the attempt cap, trigger the terminal
`reconnect_failed`; otherwise bump the attempt counter, trigger
`reconnect_attempt`, and schedule the delayed retry (`setTimeout`, handle
not stored). -/
def handleReconnect (st : TransportState) : TransportState :=
  if st.reconnectAttempts ≥ maxReconnectAttempts then
    ({ st with connectionStatus := "error" }).trig Ev.reconnectFailed
  else
    ({ st with reconnectAttempts := st.reconnectAttempts + 1,
               isConnected := false, connectionStatus := "connecting",
               pendingReconnect := true }).trig
      (Ev.reconnectAttempt (st.reconnectAttempts + 1))

/-- The `setTimeout` callback of `handleReconnect` firing: if `roomId` and
`userId` are still set (nothing ever clears them), re-`emit`
`join-room`. -/
def fireReconnectTimer (st : TransportState) (joinResult : Option JoinResp) :
    TransportState :=
  let st0 := { st with pendingReconnect := false }
  match st.roomId, st.userId with
  | some r, some u => emitJoinRoom st0 r u joinResult
  | _, _ => st0

/-- `disconnect()`: stop the polling interval, reset the connection flags,
trigger the local `disconnect` event, and (best-effort, server side only)
notify `leave-room`.  It does *not* touch `pendingReconnect` (the backoff
timer handle was never stored) and does *not* clear `roomId` / `userId` /
`sessionId`. -/
def disconnect (st : TransportState) : TransportState :=
  ({ st with pollingActive := false, isConnected := false,
             isConnecting := false, connectionStatus := "disconnected" }).trig
    Ev.disconnected

/-! ## Listener registry (`APISocket.on` / `off` / `trigger`) -/

/-- `this.listeners`: event name ↦ array of callbacks, callbacks modelled
by an identity token (JS compares them with reference equality). -/
def Listeners : Type := List (String × List Nat)

/-- `on(event, callback)`: push onto the event's callback array, creating
it if absent. -/
def onReg (l : List (String × List Nat)) (event : String) (cb : Nat) :
    List (String × List Nat) :=
  match alookup event l with
  | none => aset event [cb] l
  | some cbs => aset event (cbs ++ [cb]) l

/-- `off(event, callback)`: `indexOf` the callback and `splice` it out —
removing only the *first* matching registration; absent callbacks
(`indexOf` = −1) leave the array unchanged. -/
def offReg (l : List (String × List Nat)) (event : String) (cb : Nat) :
    List (String × List Nat) :=
  match alookup event l with
  | none => l
  | some cbs =>
    let idx := cbs.indexOf cb
    if idx < cbs.length then aset event (cbs.eraseIdx idx) l else l

/-- The sequence of callbacks `trigger(event)` invokes, in order: the
event's whole registration array (a throwing callback is caught and does
not stop the iteration). -/
def triggerCalls (l : List (String × List Nat)) (event : String) : List Nat :=
  (alookup event l).getD []

/-! ## Connection orchestrator (room page `handleUserConnected` etc.) -/

/-- The room page's per-remote state: the keys of the `players` map, the
`users` map (remote id ↦ call handle), a ghost log `placedCalls` of every
`peer.call(...)` the component has issued (handle, callee), and the next
fresh call handle. -/
structure OrchState where
  players : List String := []
  users : List (String × Nat) := []
  placedCalls : List (Nat × String) := []
  nextCall : Nat := 0
deriving DecidableEq, Repr

/-- `handleUserConnected(newUser)`: unconditionally `peer.call(newUser,
stream)` and attach handlers.  No state keyed by `newUser` is consulted or
written here — `players` / `users` entries appear only when the call's
`stream` event later fires. -/
def handleUserConnected (st : OrchState) (newUser : String) : OrchState :=
  { st with placedCalls := st.placedCalls ++ [(st.nextCall, newUser)],
            nextCall := st.nextCall + 1 }

/-- A call's `stream` handler: `setPlayers(prev => ({...prev, [u]: ...}))`
and `setUsers(prev => ({...prev, [u]: call}))` — keyed object updates,
i.e. `Map.set` semantics on the remote id. -/
def onCallStream (st : OrchState) (callId : Nat) (remote : String) : OrchState :=
  { st with players := if remote ∈ st.players
                       then st.players else st.players ++ [remote],
            users := aset remote callId st.users }

/-- A call's `close` / `error` handler: delete the remote's `players` and
`users` entries. -/
def onCallClose (st : OrchState) (remote : String) : OrchState :=
  { st with players := st.players.filter (fun p => p ≠ remote),
            users := aerase remote st.users }

/-- A PeerLink for a remote id exists when the `users` map holds a call
for it. -/
def hasPeerLink (st : OrchState) (remote : String) : Bool :=
  (alookup remote st.users).isSome

/-! ## Chat (`useChat` hook, `src/hooks/use-chat.js`) -/

/-- A chat log entry as built by `addMessage`. -/
structure ChatMessage where
  id : String
  text : String
  senderId : String
  senderName : String
  timestamp : String
  isOwn : Bool
deriving DecidableEq, Repr

/-- The argument record of `addMessage`: fields that `addMessage` defaults
via `||` are optional. -/
structure MsgDraft where
  id : Option String
  text : String
  senderId : String
  senderName : Option String
  timestamp : Option String
deriving DecidableEq, Repr

/-- JS `a || b` on a string-or-missing value: the fallback is used when
the value is absent *or* the empty string. -/
def jsOr (o : Option String) (fallback : String) : String :=
  match o with
  | some s => if s = "" then fallback else s
  | none => fallback

/-- `addMessage(message)`: build the `ChatMessage` (fresh id / timestamp
fallbacks, `senderName || senderId`, `isOwn = senderId === myId`), then
append it unless a message with the same id is already in the log. -/
def addMessage (myId freshId freshTs : String) (msgs : List ChatMessage)
    (m : MsgDraft) : List ChatMessage :=
  let nm : ChatMessage :=
    ⟨jsOr m.id freshId, m.text, m.senderId, jsOr m.senderName m.senderId,
     jsOr m.timestamp freshTs, m.senderId = myId⟩
  if msgs.any (fun x => x.id = nm.id) then msgs else msgs ++ [nm]

/-- JS `String.prototype.trim()`: strip leading and trailing
whitespace. -/
def jsTrim (s : String) : String :=
  ⟨((s.data.dropWhile Char.isWhitespace).reverse.dropWhile Char.isWhitespace).reverse⟩

/-- A data channel as `sendMessage` sees it: its `readyState`, and whether
`channel.send` succeeds (a throwing `send` is caught and merely skips the
increment of `sentCount`). -/
structure Channel where
  readyState : String
  sendOk : Bool
deriving DecidableEq, Repr

/-- `sendMessage(messageText)`: reject falsy or whitespace-only text
(return `false`, log untouched); otherwise build the message (trimmed
text, fresh id, `senderId = senderName = myId`), `addMessage` it locally,
attempt `send` on every channel whose `readyState` is `"open"`, and return
whether at least one send succeeded. -/
def sendMessage (myId : String) (msgs : List ChatMessage)
    (dataChannels : List (String × Channel)) (messageText : String)
    (freshId freshTs : String) : List ChatMessage × Bool :=
  if messageText = "" ∨ jsTrim messageText = "" then (msgs, false)
  else
    let draft : MsgDraft :=
      ⟨some freshId, jsTrim messageText, myId, some myId, some freshTs⟩
    let msgs' := addMessage myId freshId freshTs msgs draft
    let sentCount := (dataChannels.filter
      (fun c => c.2.readyState = "open" ∧ c.2.sendOk)).length
    (msgs', sentCount > 0)

/-- A parsed inbound payload (the result of a successful `JSON.parse`):
every field may be absent. -/
structure WirePayload where
  type : Option String := none
  id : Option String := none
  text : Option String := none
  senderId : Option String := none
  senderName : Option String := none
  timestamp : Option String := none
deriving DecidableEq, Repr

/-- `handleIncomingMessage(event)`: a payload that fails to parse
(`none`) is dropped; a parsed payload is appended via `addMessage` only
when its `type` is exactly `"chat-message"` and `senderId`, `text` and
`id` are all truthy; everything else is silently dropped. -/
def handleIncomingMessage (myId freshId freshTs : String)
    (msgs : List ChatMessage) (payload : Option WirePayload) : List ChatMessage :=
  match payload with
  | none => msgs
  | some d =>
    if d.type = some "chat-message" then
      if strTruthy d.senderId ∧ strTruthy d.text ∧ strTruthy d.id then
        addMessage myId freshId freshTs msgs
          ⟨d.id, d.text.getD "", d.senderId.getD "", d.senderName, d.timestamp⟩
      else msgs
    else msgs

/-- Initiator election of the data-channel setup effect:
`const shouldInitiate = myId > peerId` (JS lexicographic string
comparison). -/
def shouldInitiate (myId peerId : String) : Bool := peerId < myId

/-! ## Helper lemmas on the `Map` model -/

theorem alookup_aset_self {β : Type} (k : String) (v : β) (l : List (String × β)) :
    alookup k (aset k v l) = some v := by
  induction l with
  | nil => simp [aset, alookup]
  | cons p rest ih =>
    obtain ⟨k', v'⟩ := p
    by_cases h : k' = k
    · simp [aset, h, alookup]
    · simp [aset, h, alookup, ih]

theorem akeys_nil {β : Type} : akeys ([] : List (String × β)) = [] := rfl

theorem akeys_cons {β : Type} (k : String) (v : β) (l : List (String × β)) :
    akeys ((k, v) :: l) = k :: akeys l := rfl

theorem alookup_aset_ne {β : Type} {q k : String} (h : q ≠ k) (v : β)
    (l : List (String × β)) : alookup q (aset k v l) = alookup q l := by
  have hkq : ¬ k = q := fun hh => h hh.symm
  induction l with
  | nil => simp [aset, alookup, hkq]
  | cons p rest ih =>
    obtain ⟨k', v'⟩ := p
    by_cases hk : k' = k
    · subst hk
      simp [aset, alookup, hkq]
    · simp [aset, hk, alookup, ih]

theorem alookup_eq_none_iff {β : Type} (k : String) (l : List (String × β)) :
    alookup k l = none ↔ ¬ k ∈ akeys l := by
  induction l with
  | nil => simp [alookup, akeys]
  | cons p rest ih =>
    obtain ⟨k', v'⟩ := p
    rw [akeys_cons]
    by_cases h : k' = k
    · subst h
      simp [alookup]
    · have hne : ¬ k = k' := fun hh => h hh.symm
      simp [alookup, h, ih, hne]

theorem aset_of_alookup_none {β : Type} {k : String} (v : β)
    {l : List (String × β)} (h : alookup k l = none) : aset k v l = l ++ [(k, v)] := by
  induction l with
  | nil => simp [aset]
  | cons p rest ih =>
    obtain ⟨k', v'⟩ := p
    simp only [alookup] at h
    by_cases hk : k' = k
    · simp [hk] at h
    · simp only [aset, if_neg hk, List.cons_append, List.cons.injEq, true_and]
      exact ih (by simpa [hk] using h)

theorem aerase_of_alookup_none {β : Type} {k : String}
    {l : List (String × β)} (h : alookup k l = none) : aerase k l = l := by
  induction l with
  | nil => simp [aerase]
  | cons p rest ih =>
    obtain ⟨k', v'⟩ := p
    simp only [alookup] at h
    by_cases hk : k' = k
    · simp [hk] at h
    · simp only [aerase, if_neg hk, List.cons.injEq, true_and]
      exact ih (by simpa [hk] using h)

theorem alookup_aerase_self {β : Type} (k : String) {l : List (String × β)}
    (h : (akeys l).Nodup) : alookup k (aerase k l) = none := by
  induction l with
  | nil => simp [aerase, alookup]
  | cons p rest ih =>
    obtain ⟨k', v'⟩ := p
    simp only [akeys, List.map_cons, List.nodup_cons] at h
    by_cases hk : k' = k
    · subst hk
      simp only [aerase, if_pos rfl]
      rw [alookup_eq_none_iff]
      exact h.1
    · simp [aerase, hk, alookup, ih h.2]

theorem alookup_aerase_ne {β : Type} {q k : String} (h : q ≠ k)
    (l : List (String × β)) : alookup q (aerase k l) = alookup q l := by
  have hkq : ¬ k = q := fun hh => h hh.symm
  induction l with
  | nil => simp [aerase, alookup]
  | cons p rest ih =>
    obtain ⟨k', v'⟩ := p
    by_cases hk : k' = k
    · subst hk
      simp [aerase, alookup, hkq]
    · simp [aerase, hk, alookup, ih]

theorem akeys_aset_of_mem {β : Type} (v : β) {k : String}
    {l : List (String × β)} (h : k ∈ akeys l) : akeys (aset k v l) = akeys l := by
  induction l with
  | nil => simp [akeys] at h
  | cons p rest ih =>
    obtain ⟨k', v'⟩ := p
    rw [akeys_cons] at h
    by_cases hk : k' = k
    · subst hk
      simp [aset, akeys_cons]
    · have hmem : k ∈ akeys rest := by
        rcases List.mem_cons.mp h with h1 | h1
        · exact absurd h1.symm hk
        · exact h1
      simp [aset, hk, akeys_cons, ih hmem]

theorem akeys_aset_nodup {β : Type} (k : String) (v : β)
    {l : List (String × β)} (h : (akeys l).Nodup) : (akeys (aset k v l)).Nodup := by
  by_cases hm : k ∈ akeys l
  · rw [akeys_aset_of_mem v hm]
    exact h
  · rw [aset_of_alookup_none v ((alookup_eq_none_iff k l).mpr hm)]
    have hs : akeys (l ++ [(k, v)]) = akeys l ++ [k] := by simp [akeys]
    rw [hs]
    simp [List.nodup_append, h, hm]

theorem akeys_aerase_sublist {β : Type} (k : String) (l : List (String × β)) :
    (akeys (aerase k l)).Sublist (akeys l) := by
  induction l with
  | nil => simp [aerase, akeys]
  | cons p rest ih =>
    obtain ⟨k', v'⟩ := p
    by_cases hk : k' = k
    · simp only [aerase, if_pos hk, akeys_cons]
      exact List.sublist_cons_self k' (akeys rest)
    · simpa [aerase, hk, akeys] using ih.cons₂ k'

theorem mem_aerase {β : Type} {p : String × β} {k : String}
    {l : List (String × β)} (h : p ∈ aerase k l) : p ∈ l := by
  induction l with
  | nil => simp [aerase] at h
  | cons q rest ih =>
    obtain ⟨k', v'⟩ := q
    by_cases hk : k' = k
    · simp only [aerase, if_pos hk] at h
      exact List.mem_cons_of_mem _ h
    · simp only [aerase, if_neg hk, List.mem_cons] at h
      rcases h with h | h
      · exact List.mem_cons.mpr (Or.inl h)
      · exact List.mem_cons_of_mem _ (ih h)

theorem mem_aset {β : Type} {p : String × β} {k : String} {v : β}
    {l : List (String × β)} (h : p ∈ aset k v l) : p = (k, v) ∨ p ∈ l := by
  induction l with
  | nil => simpa [aset] using h
  | cons q rest ih =>
    obtain ⟨k', v'⟩ := q
    by_cases hk : k' = k
    · simp only [aset, if_pos hk, List.mem_cons] at h
      rcases h with h | h
      · exact Or.inl h
      · exact Or.inr (List.mem_cons_of_mem _ h)
    · simp only [aset, if_neg hk, List.mem_cons] at h
      rcases h with h | h
      · exact Or.inr (List.mem_cons.mpr (Or.inl h))
      · rcases ih h with h | h
        · exact Or.inl h
        · exact Or.inr (List.mem_cons_of_mem _ h)

/-! ## Shared transport lemmas -/

theorem foldl_trig_emitted (l : List String) (tst : TransportState) :
    (l.foldl (fun acc u => acc.trig (Ev.userConnected u)) tst).emitted
      = tst.emitted ++ l.map Ev.userConnected := by
  induction l generalizing tst with
  | nil => simp
  | cons x xs ih =>
    rw [List.foldl_cons, ih]
    simp [TransportState.trig, List.append_assoc]

theorem trig_emitted (st : TransportState) (e : Ev) :
    (st.trig e).emitted = st.emitted ++ [e] := rfl

theorem trig_pollingActive (st : TransportState) (e : Ev) :
    (st.trig e).pollingActive = st.pollingActive := rfl

theorem trig_roomId (st : TransportState) (e : Ev) :
    (st.trig e).roomId = st.roomId := rfl

theorem trig_userId (st : TransportState) (e : Ev) :
    (st.trig e).userId = st.userId := rfl

theorem foldl_trig_pollingActive (l : List String) (tst : TransportState) :
    (l.foldl (fun acc u => acc.trig (Ev.userConnected u)) tst).pollingActive
      = tst.pollingActive := by
  induction l generalizing tst with
  | nil => simp
  | cons x xs ih => rw [List.foldl_cons, ih, trig_pollingActive]

/-! ## Claim C5 -/

/-- C5: initiator election for the side channel is symmetric and
consistent: `shouldInitiate` is `myId > peerId`, so for any two distinct
participant ids exactly one of the two sides computes `true` — the side
whose local id sorts lexicographically greater — and both sides therefore
agree on a single initiator without communication. -/
theorem shouldInitiate_unique_initiator (a b : String) (h : a ≠ b) :
    (shouldInitiate a b = true ↔ b < a) ∧
    ((shouldInitiate a b = true ∧ shouldInitiate b a = false) ∨
     (shouldInitiate a b = false ∧ shouldInitiate b a = true)) := by
  constructor
  · simp [shouldInitiate]
  · rcases lt_trichotomy a b with hlt | heq | hgt
    · refine Or.inr ⟨?_, ?_⟩
      · simp [shouldInitiate, not_lt.mpr hlt.le]
      · simp [shouldInitiate, hlt]
    · exact absurd heq h
    · refine Or.inl ⟨?_, ?_⟩
      · simp [shouldInitiate, hgt]
      · simp [shouldInitiate, not_lt.mpr hgt.le]

/-- Witness for C5 at the spec's example ids: "bob" and "alice" are
distinct, "bob"'s side initiates, and exactly one side initiates. -/
theorem shouldInitiate_unique_initiator_witness :
    ("bob" : String) ≠ "alice" ∧ shouldInitiate "bob" "alice" = true ∧
    ((shouldInitiate "bob" "alice" = true ∧ shouldInitiate "alice" "bob" = false) ∨
     (shouldInitiate "bob" "alice" = false ∧ shouldInitiate "alice" "bob" = true)) :=
  ⟨by decide,
   (shouldInitiate_unique_initiator "bob" "alice" (by decide)).1.mpr
     (by rw [String.lt_iff_toList_lt]; decide),
   (shouldInitiate_unique_initiator "bob" "alice" (by decide)).2⟩

/-! ## Claim C10 -/

/-- C10: the subscription registry counts registrations, not handlers:
`on` appends one registration, `trigger` invokes the whole registration
array in order (so a handler registered n times is invoked n times), and
`off` removes exactly the first matching registration, so its invocation
count drops by exactly one. -/
theorem listener_registry_counts_registrations
    (l : List (String × List Nat)) (ev : String) (cb : Nat) :
    triggerCalls (onReg l ev cb) ev = triggerCalls l ev ++ [cb] ∧
    triggerCalls (offReg l ev cb) ev = (triggerCalls l ev).erase cb ∧
    (triggerCalls (offReg l ev cb) ev).count cb = (triggerCalls l ev).count cb - 1 := by
  have h2 : triggerCalls (offReg l ev cb) ev = (triggerCalls l ev).erase cb := by
    unfold offReg triggerCalls
    cases h : alookup ev l with
    | none => simp [h]
    | some cbs =>
      simp only [h, Option.getD_some]
      by_cases hidx : cbs.indexOf cb < cbs.length
      · simp only [hidx, if_true, alookup_aset_self, Option.getD_some]
        exact List.eraseIdx_indexOf_eq_erase cb cbs
      · have hnm : ¬ cb ∈ cbs := fun hm => hidx (List.indexOf_lt_length.mpr hm)
        simp [hidx, h, List.erase_of_not_mem hnm]
  refine ⟨?_, h2, ?_⟩
  · unfold onReg triggerCalls
    cases h : alookup ev l with
    | none => simp [h, alookup_aset_self]
    | some cbs => simp [h, alookup_aset_self]
  · rw [h2]
    exact List.count_erase_self cb (triggerCalls l ev)

/-! ## Claim C7 -/

/-- The `GET` dispatcher routes a `ping` to the shared ping body. -/
theorem getStatus_ping (st : ServerState) (sid : Option String) (now : Nat) :
    getStatus st (some "ping") none none sid now = (pingTouch st sid now).2 := rfl

/-- C7 counterexample: a `ping` whose `sessionId` parameter is absent is
answered 404 (the single `Session not found` response), not a 400-class
missing-required-field error.  The state is the one reached by `u1`
joining `r1`. -/
theorem ping_missing_param_is_404 :
    getStatus (joinRoom ServerState.init "r1" "u1" "s1" 0).1
        (some "ping") none none none 0 = 404 ∧ (404 : Nat) ≠ 400 := by decide

/-- C7 corrected: the ping handler does not distinguish a missing
`session_id` from an unknown/expired one — both fall through to the same
404 — while a found session is answered 200; the missing-field 400 rule
does hold for the `join-room`, `leave-room` and `get-room-users`
handlers. -/
theorem ping_404_conflates_missing_and_unknown
    (st : ServerState) (now : Nat) (sidU sidK : String) (s : Session)
    (hu : alookup sidU st.sessions = none)
    (hk : alookup sidK st.sessions = some s) (hne : sidK ≠ "") :
    getStatus st (some "ping") none none none now = 404 ∧
    getStatus st (some "ping") none none (some sidU) now = 404 ∧
    getStatus st (some "ping") none none (some sidK) now = 200 ∧
    getStatus st (some "join-room") none none none now = 400 ∧
    getStatus st (some "leave-room") none none none now = 400 ∧
    getStatus st (some "get-room-users") none none none now = 400 := by
  refine ⟨rfl, ?_, ?_, rfl, rfl, rfl⟩
  · rw [getStatus_ping]
    by_cases hsu : sidU = "" <;> simp [pingTouch, hsu, hu]
  · rw [getStatus_ping]
    simp [pingTouch, hne, hk]

/-- Witness for C7: in the store where `u1` joined `r1` with session
`s1`, the session id "nope" is unknown and "s1" is known. -/
theorem ping_404_conflates_missing_and_unknown_witness :
    alookup "nope" (joinRoom ServerState.init "r1" "u1" "s1" 0).1.sessions = none ∧
    alookup "s1" (joinRoom ServerState.init "r1" "u1" "s1" 0).1.sessions
      = some ⟨"u1", "r1", 0⟩ ∧
    getStatus (joinRoom ServerState.init "r1" "u1" "s1" 0).1
      (some "ping") none none (some "nope") 0 = 404 ∧
    getStatus (joinRoom ServerState.init "r1" "u1" "s1" 0).1
      (some "ping") none none (some "s1") 0 = 200 :=
  ⟨by decide, by decide,
   (ping_404_conflates_missing_and_unknown _ 0 "nope" "s1" ⟨"u1", "r1", 0⟩
     (by decide) (by decide) (by decide)).2.1,
   (ping_404_conflates_missing_and_unknown _ 0 "nope" "s1" ⟨"u1", "r1", 0⟩
     (by decide) (by decide) (by decide)).2.2.1⟩

/-! ## Claim C2 -/

/-- C2 counterexample: the first participant joining an empty room
receives `room_users = ["u1"]` — the list contains the joiner and is not
`[]` as the claim states. -/
theorem joinRoom_first_joiner_sees_self :
    (joinRoom ServerState.init "r1" "u1" "s1" 0).2.roomUsers = ["u1"] ∧
    (joinRoom ServerState.init "r1" "u1" "s1" 0).2.roomUsers ≠ [] := by decide

/-- C2 corrected: `join-room` answers with the ids of all current members
of the room *including* the joining participant (so the first joiner gets
`["u1"]` and `u2` joining `u1`'s room gets `["u1", "u2"]`); it is the
transport that filters the local id out before synthesizing
`user-connected` events from the join response. -/
theorem joinRoom_roomUsers_include_joiner
    (st : ServerState) (r u sid : String) (now : Nat)
    (hnot : ∀ m ∈ (alookup r st.rooms).getD [], m.id ≠ u) :
    (joinRoom st r u sid now).2.roomUsers
      = ((alookup r st.rooms).getD []).map Member.id ++ [u] ∧
    u ∈ (joinRoom st r u sid now).2.roomUsers ∧
    ∀ (tst : TransportState) (resp : JoinResp),
      (emitJoinRoom tst r u (some resp)).emitted
        = tst.emitted ++ [Ev.connecting, Ev.connect, Ev.joinedRoom r]
          ++ (resp.roomUsers.filter (fun x => x ≠ u)).map Ev.userConnected := by
  have hany : ((alookup r st.rooms).getD []).any (fun m => m.id = u) = false := by
    rw [List.any_eq_false]
    intro m hm
    simpa using hnot m hm
  refine ⟨?_, ?_, ?_⟩
  · simp [joinRoom, hany]
  · simp [joinRoom, hany]
  · intro tst resp
    simp [emitJoinRoom, foldl_trig_emitted, trig_emitted, List.append_assoc]

/-- Witness for C2: `u1` joining the empty store. -/
theorem joinRoom_roomUsers_include_joiner_witness :
    (∀ m ∈ (alookup "r1" ServerState.init.rooms).getD [], m.id ≠ "u1") ∧
    (joinRoom ServerState.init "r1" "u1" "s1" 0).2.roomUsers
      = ((alookup "r1" ServerState.init.rooms).getD []).map Member.id ++ ["u1"] ∧
    "u1" ∈ (joinRoom ServerState.init "r1" "u1" "s1" 0).2.roomUsers :=
  ⟨by decide,
   (joinRoom_roomUsers_include_joiner ServerState.init "r1" "u1" "s1" 0 (by decide)).1,
   (joinRoom_roomUsers_include_joiner ServerState.init "r1" "u1" "s1" 0 (by decide)).2.1⟩

/-! ## Claim C1 -/

/-- C1 counterexample: with a PeerLink for "u2" already present (a call
was placed and its `stream` event fired), a second `user-connected("u2")`
is not ignored — `handleUserConnected` places a second outbound call. -/
theorem userConnected_duplicate_places_second_call :
    hasPeerLink (onCallStream (handleUserConnected ⟨[], [], [], 0⟩ "u2") 0 "u2") "u2"
      = true ∧
    (handleUserConnected
        (onCallStream (handleUserConnected ⟨[], [], [], 0⟩ "u2") 0 "u2")
        "u2").placedCalls = [(0, "u2"), (1, "u2")] := by decide

/-- C1 corrected: `handleUserConnected` consults no per-remote state and
unconditionally initiates an outbound call, even when a PeerLink for the
remote id already exists; at-most-one-per-pair holds only for the
`players` / `users` entries, which are keyed by remote id. -/
theorem userConnected_unconditional_call
    (st : OrchState) (u : String) (c : Nat)
    (hN : (akeys st.users).Nodup) (hP : st.players.Nodup) :
    (handleUserConnected st u).placedCalls = st.placedCalls ++ [(st.nextCall, u)] ∧
    (handleUserConnected st u).users = st.users ∧
    (handleUserConnected st u).players = st.players ∧
    (akeys (onCallStream st c u).users).Nodup ∧
    (onCallStream st c u).players.Nodup := by
  refine ⟨rfl, rfl, rfl, akeys_aset_nodup u c hN, ?_⟩
  unfold onCallStream
  by_cases hc : u ∈ st.players
  · simpa [hc] using hP
  · simp [hc, List.nodup_append, hP]

/-- Witness for C1: the empty orchestrator state. -/
theorem userConnected_unconditional_call_witness :
    (akeys (⟨[], [], [], 0⟩ : OrchState).users).Nodup ∧
    (⟨[], [], [], 0⟩ : OrchState).players.Nodup ∧
    (handleUserConnected ⟨[], [], [], 0⟩ "u2").placedCalls = [(0, "u2")] ∧
    (akeys (onCallStream ⟨[], [], [], 0⟩ 0 "u2").users).Nodup :=
  ⟨by decide, by decide,
   (userConnected_unconditional_call ⟨[], [], [], 0⟩ "u2" 0 (by decide) (by decide)).1,
   (userConnected_unconditional_call ⟨[], [], [], 0⟩ "u2" 0 (by decide) (by decide)).2.2.2.1⟩

/-! ## Claim C3 -/

/-- C3 counterexample: after a successful join, one failed-poll backoff
(`handleReconnect`) and then `disconnect()`, the backoff timer is still
pending; when it fires it re-issues `join-room`, restarts polling, and
emits further synthetic events after the `disconnect` event. -/
theorem disconnect_then_backoff_fires :
    (disconnect (handleReconnect
        (emitJoinRoom TransportState.mk0 "r" "u" (some ⟨"sid", ["u"]⟩)))).pendingReconnect
      = true ∧
    (fireReconnectTimer
        (disconnect (handleReconnect
          (emitJoinRoom TransportState.mk0 "r" "u" (some ⟨"sid", ["u"]⟩))))
        (some ⟨"sid2", ["u"]⟩)).pollingActive = true ∧
    (fireReconnectTimer
        (disconnect (handleReconnect
          (emitJoinRoom TransportState.mk0 "r" "u" (some ⟨"sid", ["u"]⟩))))
        (some ⟨"sid2", ["u"]⟩)).emitted
      = (disconnect (handleReconnect
          (emitJoinRoom TransportState.mk0 "r" "u" (some ⟨"sid", ["u"]⟩)))).emitted
        ++ [Ev.connecting, Ev.connect, Ev.joinedRoom "r"] := by decide

/-- C3 corrected: `disconnect()` does cancel the pending poll timer
(`stopPolling`) and emits the local `disconnect` event, but it neither
cancels an in-flight reconnection backoff (the `setTimeout` handle is
never stored) nor clears `roomId` / `userId`, so a backoff retry scheduled
before the disconnect re-issues `join-room` afterwards, restarting polling
and emitting further synthetic events. -/
theorem disconnect_stops_polling_not_backoff
    (st : TransportState) (r u : String) (resp : JoinResp)
    (hr : st.roomId = some r) (hu : st.userId = some u) :
    (disconnect st).pollingActive = false ∧
    (disconnect st).pendingReconnect = st.pendingReconnect ∧
    (disconnect st).roomId = st.roomId ∧
    (disconnect st).userId = st.userId ∧
    (disconnect st).emitted = st.emitted ++ [Ev.disconnected] ∧
    (fireReconnectTimer (disconnect st) (some resp)).pollingActive = true ∧
    (fireReconnectTimer (disconnect st) (some resp)).emitted
      = st.emitted ++ [Ev.disconnected, Ev.connecting, Ev.connect, Ev.joinedRoom r]
        ++ (resp.roomUsers.filter (fun x => x ≠ u)).map Ev.userConnected := by
  refine ⟨rfl, rfl, rfl, rfl, rfl, ?_, ?_⟩
  · simp [disconnect, fireReconnectTimer, trig_roomId, trig_userId, hr, hu,
      emitJoinRoom, foldl_trig_pollingActive, trig_pollingActive]
  · simp [disconnect, fireReconnectTimer, trig_roomId, trig_userId, hr, hu,
      emitJoinRoom, foldl_trig_emitted, trig_emitted, List.append_assoc]

/-- Witness for C3: the joined-then-backed-off state. -/
theorem disconnect_stops_polling_not_backoff_witness :
    (handleReconnect
        (emitJoinRoom TransportState.mk0 "r" "u" (some ⟨"sid", ["u"]⟩))).roomId
      = some "r" ∧
    (handleReconnect
        (emitJoinRoom TransportState.mk0 "r" "u" (some ⟨"sid", ["u"]⟩))).userId
      = some "u" ∧
    (fireReconnectTimer
        (disconnect (handleReconnect
          (emitJoinRoom TransportState.mk0 "r" "u" (some ⟨"sid", ["u"]⟩))))
        (some ⟨"sid2", ["u"]⟩)).pollingActive = true :=
  ⟨by decide, by decide,
   (disconnect_stops_polling_not_backoff
      (handleReconnect (emitJoinRoom TransportState.mk0 "r" "u" (some ⟨"sid", ["u"]⟩)))
      "r" "u" ⟨"sid2", ["u"]⟩ (by decide) (by decide)).2.2.2.2.2.1⟩

/-! ## Claim C8 -/

/-- C8: `sendMessage` rejects empty or whitespace-only text (returns
`false`, log untouched); for non-empty text it appends the trimmed
message to the local log with `isOwn = true` — also when zero channels are
open — and returns `true` iff at least one channel in `open` state
accepted the write. -/
theorem sendMessage_spec (myId text freshId freshTs : String)
    (msgs : List ChatMessage) (chans : List (String × Channel))
    (hfresh : ∀ m ∈ msgs, m.id ≠ freshId) :
    (jsTrim text = "" →
      sendMessage myId msgs chans text freshId freshTs = (msgs, false)) ∧
    (jsTrim text ≠ "" →
      (sendMessage myId msgs chans text freshId freshTs).1
        = msgs ++ [⟨freshId, jsTrim text, myId, myId, freshTs, true⟩] ∧
      ((sendMessage myId msgs chans text freshId freshTs).2 = true ↔
        ∃ c ∈ chans, c.2.readyState = "open" ∧ c.2.sendOk = true)) := by
  constructor
  · intro h
    simp [sendMessage, h]
  · intro h
    have htext : ¬ text = "" := by
      intro hh
      subst hh
      exact h rfl
    have hany : msgs.any (fun x => x.id = freshId) = false := by
      rw [List.any_eq_false]
      intro m hm
      simpa using hfresh m hm
    constructor
    · simp [sendMessage, htext, h, addMessage, jsOr, hany]
    · simp only [sendMessage, htext, h, or_self, if_false, decide_eq_true_eq]
      rw [gt_iff_lt, List.length_pos_iff_exists_mem]
      constructor
      · rintro ⟨c, hc⟩
        rcases List.mem_filter.mp hc with ⟨hmem, hp⟩
        exact ⟨c, hmem, by simpa using hp⟩
      · rintro ⟨c, hmem, hp⟩
        exact ⟨c, List.mem_filter.mpr ⟨hmem, by simpa using hp⟩⟩

/-- Witness for C8: `u1.send("hi")` with no open channels returns `false`
and still appends the message with `isOwn = true`. -/
theorem sendMessage_spec_witness :
    (∀ m ∈ ([] : List ChatMessage), m.id ≠ "m1") ∧
    (sendMessage "u1" [] [] "hi" "m1" "t1").1
      = [] ++ [⟨"m1", jsTrim "hi", "u1", "u1", "t1", true⟩] ∧
    ((sendMessage "u1" [] [] "hi" "m1" "t1").2 = true ↔
      ∃ c ∈ ([] : List (String × Channel)),
        c.2.readyState = "open" ∧ c.2.sendOk = true) :=
  ⟨by decide,
   ((sendMessage_spec "u1" "hi" "m1" "t1" [] [] (by decide)).2 (by decide)).1,
   ((sendMessage_spec "u1" "hi" "m1" "t1" [] [] (by decide)).2 (by decide)).2⟩

/-! ## Claim C9 -/

/-- C9: inbound delivery is idempotent under retransmission: delivering
the same well-formed chat payload (same message id) twice into
`handleIncomingMessage` leaves exactly what one delivery leaves, and — when
the id is new — exactly one log entry carries that id; the second copy is
dropped by the same id-keyed de-duplicating append used for local echo. -/
theorem handleIncomingMessage_idempotent
    (myId f1 t1 f2 t2 : String) (msgs : List ChatMessage)
    (d : WirePayload) (pid : String)
    (hty : d.type = some "chat-message") (hid : d.id = some pid) (hpid : pid ≠ "")
    (hs : strTruthy d.senderId = true) (ht : strTruthy d.text = true) :
    handleIncomingMessage myId f2 t2
        (handleIncomingMessage myId f1 t1 msgs (some d)) (some d)
      = handleIncomingMessage myId f1 t1 msgs (some d) ∧
    ((∀ m ∈ msgs, m.id ≠ pid) →
      ((handleIncomingMessage myId f1 t1 msgs (some d)).filter
          (fun m => m.id = pid)).length = 1) := by
  have hvalid : strTruthy d.id = true := by
    rw [hid]
    simpa [strTruthy] using hpid
  have hone : ∀ (f t : String) (ms : List ChatMessage),
      handleIncomingMessage myId f t ms (some d)
      = addMessage myId f t ms ⟨d.id, d.text.getD "", d.senderId.getD "", d.senderName, d.timestamp⟩ := by
    intro f t ms
    simp [handleIncomingMessage, hty, hs, ht, hvalid]
  have hnmid : ∀ f, jsOr d.id f = pid := by
    intro f
    simp [jsOr, hid, hpid]
  constructor
  · rw [hone f1 t1 msgs, hone f2 t2 _]
    unfold addMessage
    by_cases hdup : msgs.any (fun x => x.id = jsOr d.id f1)
    · have hdup2 : msgs.any (fun x => x.id = jsOr d.id f2) = true := by
        rw [hnmid f2]
        rw [hnmid f1] at hdup
        exact hdup
      simp only [hdup, hdup2, if_true]
    · have hdup2 : msgs.any (fun x => x.id = jsOr d.id f2) = false := by
        rw [hnmid f2]
        rw [hnmid f1] at hdup
        simpa using hdup
      simp only [Bool.not_eq_true] at hdup
      simp only [hdup, hdup2, Bool.false_eq_true, if_false]
      have : (msgs ++ [(⟨jsOr d.id f2, d.text.getD "", d.senderId.getD "",
          jsOr d.senderName (d.senderId.getD ""), jsOr d.timestamp t2,
          decide (d.senderId.getD "" = myId)⟩ : ChatMessage)]).any
          (fun x => x.id = jsOr d.id f2) = true := by
        simp [List.any_append]
      simp only [hnmid f1, hnmid f2] at this ⊢
      simp [this]
  · intro hnew
    rw [hone f1 t1 msgs]
    unfold addMessage
    have hdup : msgs.any (fun x => x.id = jsOr d.id f1) = false := by
      rw [List.any_eq_false]
      intro m hm
      simpa [hnmid f1] using hnew m hm
    simp only [hdup, Bool.false_eq_true, if_false]
    rw [List.filter_append]
    have h0 : msgs.filter (fun m => m.id = pid) = [] := by
      rw [List.filter_eq_nil_iff]
      intro m hm
      simpa using hnew m hm
    simp [h0, hnmid f1]

/-- Witness for C9: a well-formed payload from `u2` delivered twice into
an empty log. -/
theorem handleIncomingMessage_idempotent_witness :
    (let d : WirePayload :=
      ⟨some "chat-message", some "m9", some "yo", some "u2", none, none⟩
     handleIncomingMessage "u1" "f2" "t2"
        (handleIncomingMessage "u1" "f1" "t1" [] (some d)) (some d)
      = handleIncomingMessage "u1" "f1" "t1" [] (some d) ∧
     ((handleIncomingMessage "u1" "f1" "t1" [] (some d)).filter
        (fun m => m.id = "m9")).length = 1) :=
  ⟨(handleIncomingMessage_idempotent "u1" "f1" "t1" "f2" "t2" []
      ⟨some "chat-message", some "m9", some "yo", some "u2", none, none⟩ "m9"
      rfl rfl (by decide) (by decide) (by decide)).1,
   (handleIncomingMessage_idempotent "u1" "f1" "t1" "f2" "t2" []
      ⟨some "chat-message", some "m9", some "yo", some "u2", none, none⟩ "m9"
      rfl rfl (by decide) (by decide) (by decide)).2 (by decide)⟩

/-! ## Claim C6 -/

theorem mem_firstDedupGo (u : String) (l : List String) :
    ∀ seen : List String, u ∈ firstDedupGo seen l ↔ (u ∈ l ∧ ¬ u ∈ seen) := by
  induction l with
  | nil => intro seen; simp [firstDedupGo]
  | cons x xs ih =>
    intro seen
    by_cases hx : x ∈ seen
    · rw [firstDedupGo, if_pos hx, ih seen]
      by_cases hu : u = x
      · subst hu
        simp [hx]
      · simp [hu]
    · rw [firstDedupGo, if_neg hx]
      by_cases hu : u = x
      · subst hu
        simp [hx]
      · simp only [List.mem_cons, hu, false_or, ih (x :: seen)]

theorem mem_firstDedup (u : String) (l : List String) :
    u ∈ firstDedup l ↔ u ∈ l := by
  rw [firstDedup, mem_firstDedupGo]
  simp

theorem replay_append (a b : List Ev) (s : Finset String) :
    replay s (a ++ b) = replay (replay s a) b := by
  induction a generalizing s with
  | nil => simp [replay]
  | cons e rest ih =>
    cases e <;> simp [replay, ih]

theorem replay_connects (l : List String) (s : Finset String) :
    replay s (l.map Ev.userConnected) = s ∪ l.toFinset := by
  induction l generalizing s with
  | nil => simp [replay]
  | cons x xs ih =>
    simp [replay, ih, Finset.union_insert, Finset.insert_union]

theorem replay_leaves (l : List String) (s : Finset String) :
    replay s (l.map Ev.userLeave) = s \ l.toFinset := by
  induction l generalizing s with
  | nil => simp [replay]
  | cons x xs ih =>
    rw [List.map_cons, replay, ih]
    ext y
    simp only [Finset.mem_sdiff, Finset.mem_erase, List.toFinset_cons,
      Finset.mem_insert, List.mem_toFinset]
    tauto

theorem replay_pollDiff (selfId : String) (prev curr : List String) :
    replay (prev.toFinset \ {selfId}) (pollDiffEvents selfId prev curr)
      = curr.toFinset \ {selfId} := by
  rw [pollDiffEvents, replay_append, replay_connects, replay_leaves]
  ext x
  simp only [Finset.mem_sdiff, Finset.mem_union, Finset.mem_singleton,
    List.mem_toFinset, List.mem_filter, mem_firstDedup, decide_eq_true_eq,
    Bool.decide_and, Bool.and_eq_true, decide_not, Bool.not_eq_true',
    decide_eq_false_iff_not]
  by_cases hx : x = selfId
  · simp [hx]
  · simp [hx]
    tauto

theorem runPolls_replay (selfId : String) (ticks : List (Option (List String))) :
    ∀ st : PollState,
      replay ((st.lastKnownUsers.getD []).toFinset \ {selfId})
          (runPolls selfId st ticks).2
        = ((lastSnapshot ticks).getD (st.lastKnownUsers.getD [])).toFinset
            \ {selfId} := by
  induction ticks with
  | nil =>
    intro st
    simp [runPolls, lastSnapshot, replay]
  | cons t ts ih =>
    intro st
    cases t with
    | none =>
      rw [show runPolls selfId st (none :: ts)
            = ((runPolls selfId st ts).1, [] ++ (runPolls selfId st ts).2) from rfl]
      cases h : lastSnapshot ts with
      | none => simpa [lastSnapshot, h] using ih st
      | some snap => simpa [lastSnapshot, h] using ih st
    | some users =>
      rw [show runPolls selfId st (some users :: ts)
            = ((runPolls selfId ⟨some users⟩ ts).1,
               pollDiffEvents selfId (st.lastKnownUsers.getD []) users
                 ++ (runPolls selfId ⟨some users⟩ ts).2) from rfl]
      simp only [replay_append, replay_pollDiff]
      have hbase : (curr : List String) → True := fun _ => trivial
      have := ih ⟨some users⟩
      simp only [Option.getD_some] at this
      cases h : lastSnapshot ts with
      | none => simpa [lastSnapshot, h, Option.getD_some] using this
      | some snap => simpa [lastSnapshot, h, Option.getD_some] using this

/-- C6 counterexample: the polling diff excludes the local id, so a
snapshot containing it is not reconstructed by replay: with local id "me"
and first successful snapshot `["me"]`, no event at all is emitted and the
replayed set is empty, not `{"me"}` = S0. -/
theorem poll_replay_misses_local_id :
    (runPolls "me" ⟨none⟩ [some ["me"]]).2 = [] ∧
    replay ∅ (runPolls "me" ⟨none⟩ [some ["me"]]).2
      ≠ (["me"] : List String).toFinset := by decide

/-- C6 corrected: replaying the emitted `user-connected` / `user-leave`
events against an empty starting set reconstructs exactly the last
successful snapshot *minus the local id* (so exactly Sn whenever the local
id is not in the snapshots); failed ticks emit nothing and leave the
snapshot unchanged — they are not treated as an empty room. -/
theorem poll_replay_reconstructs_nonlocal (selfId : String)
    (ticks : List (Option (List String))) :
    replay ∅ (runPolls selfId ⟨none⟩ ticks).2
      = ((lastSnapshot ticks).getD []).toFinset \ {selfId} := by
  have h := runPolls_replay selfId ticks ⟨none⟩
  simpa using h

/-! ## Claim C4: presence invariant machinery -/

theorem alookup_mem {β : Type} {k : String} {v : β} :
    ∀ {l : List (String × β)}, alookup k l = some v → (k, v) ∈ l := by
  intro l
  induction l with
  | nil => simp [alookup]
  | cons p rest ih =>
    obtain ⟨k', v'⟩ := p
    by_cases hk : k' = k
    · subst hk
      intro h
      simp [alookup] at h
      rw [← h]
      exact List.mem_cons_self _ _
    · simp only [alookup, if_neg hk]
      intro h
      exact List.mem_cons_of_mem _ (ih h)

theorem mem_eraseFirstSession {p : String × Session} {u r : String} :
    ∀ {l : List (String × Session)}, p ∈ eraseFirstSession u r l → p ∈ l := by
  intro l
  induction l with
  | nil => simp [eraseFirstSession]
  | cons q rest ih =>
    obtain ⟨sid, s⟩ := q
    by_cases hm : s.userId = u ∧ s.roomId = r
    · simp only [eraseFirstSession, if_pos hm]
      exact fun h => List.mem_cons_of_mem _ h
    · simp only [eraseFirstSession, if_neg hm, List.mem_cons]
      rintro (h | h)
      · exact Or.inl h
      · exact Or.inr (ih h)

theorem sessPairs_nil : sessPairs [] = [] := rfl

theorem sessPairs_cons (p : String × Session) (l : List (String × Session)) :
    sessPairs (p :: l) = (p.2.roomId, p.2.userId) :: sessPairs l := rfl

theorem sessPairs_append (a b : List (String × Session)) :
    sessPairs (a ++ b) = sessPairs a ++ sessPairs b := by
  simp [sessPairs]

theorem isMember_iff (st : ServerState) (r u : String) :
    isMember st r u = true ↔ MemberIn st.rooms r u := by
  unfold isMember getRoomUsers MemberIn
  cases h : alookup r st.rooms with
  | none => simp [h]
  | some users => simp [h]

theorem hasSessionFor_iff (st : ServerState) (r u : String) :
    hasSessionFor st r u = true ↔ (r, u) ∈ sessPairs st.sessions := by
  unfold hasSessionFor sessPairs sessionPair
  rw [List.any_eq_true]
  constructor
  · rintro ⟨p, hp, hcond⟩
    simp only [decide_eq_true_eq] at hcond
    exact List.mem_map.mpr ⟨p, hp, by simp [hcond.1, hcond.2]⟩
  · intro h
    rcases List.mem_map.mp h with ⟨p, hp, hpe⟩
    refine ⟨p, hp, ?_⟩
    simp only [Prod.mk.injEq] at hpe
    simp [hpe.1, hpe.2]

theorem hasUnexpired_eq_hasSession (st : ServerState) (r u : String) (now : Nat)
    (hall : ∀ p ∈ st.sessions, ¬ now - p.2.lastSeen > fiveMinutes) :
    hasUnexpiredSessionFor st r u now = hasSessionFor st r u := by
  unfold hasUnexpiredSessionFor hasSessionFor
  rw [Bool.eq_iff_iff, List.any_eq_true, List.any_eq_true]
  constructor
  · rintro ⟨p, hp, hc⟩
    simp only [decide_eq_true_eq] at hc
    exact ⟨p, hp, by simp [hc.1, hc.2.1]⟩
  · rintro ⟨p, hp, hc⟩
    simp only [decide_eq_true_eq] at hc
    exact ⟨p, hp, by simp [hc.1, hc.2, hall p hp]⟩

theorem sessPairs_eraseFirst (u r : String) (l : List (String × Session)) :
    sessPairs (eraseFirstSession u r l) = (sessPairs l).erase (r, u) := by
  induction l with
  | nil => simp [eraseFirstSession, sessPairs]
  | cons q rest ih =>
    obtain ⟨sid, s⟩ := q
    by_cases hm : s.userId = u ∧ s.roomId = r
    · rw [eraseFirstSession, if_pos hm, sessPairs_cons]
      have : ((s.roomId, s.userId) : String × String) = (r, u) := by
        simp [hm.1, hm.2]
      rw [this, List.erase_cons_head]
    · rw [eraseFirstSession, if_neg hm, sessPairs_cons, sessPairs_cons]
      have hne : ((s.roomId, s.userId) : String × String) ≠ (r, u) := by
        simp only [Ne, Prod.mk.injEq, not_and]
        intro h1 h2
        exact hm ⟨h2, h1⟩
      rw [List.erase_cons_tail, ih]
      simp [hne]

theorem leaveRoom_eq (st : ServerState) (r u : String) :
    leaveRoom st r u
      = ⟨removeUserFromRooms r u st.rooms, eraseFirstSession u r st.sessions⟩ := by
  unfold leaveRoom removeUserFromRooms
  cases h : alookup r st.rooms <;> simp [h]

theorem removeUser_eq_none {rid uid : String}
    {rooms : List (String × List Member)} (hl : alookup rid rooms = none) :
    removeUserFromRooms rid uid rooms = rooms := by
  unfold removeUserFromRooms
  rw [hl]

theorem removeUser_eq_some {rid uid : String}
    {rooms : List (String × List Member)} {users : List Member}
    (hl : alookup rid rooms = some users) :
    removeUserFromRooms rid uid rooms
      = if (users.filter (fun m => m.id ≠ uid)).isEmpty
        then aerase rid rooms
        else aset rid (users.filter (fun m => m.id ≠ uid)) rooms := by
  unfold removeUserFromRooms
  rw [hl]

theorem removeUser_keysNodup (rid uid : String)
    {rooms : List (String × List Member)} (h : (akeys rooms).Nodup) :
    (akeys (removeUserFromRooms rid uid rooms)).Nodup := by
  cases hl : alookup rid rooms with
  | none => rw [removeUser_eq_none hl]; exact h
  | some users =>
    rw [removeUser_eq_some hl]
    by_cases he : (users.filter (fun m => m.id ≠ uid)).isEmpty
    · rw [if_pos he]
      exact (akeys_aerase_sublist rid rooms).nodup h
    · rw [if_neg he]
      exact akeys_aset_nodup rid _ h

theorem removeUser_membersNodup (rid uid : String)
    {rooms : List (String × List Member)}
    (h : ∀ p ∈ rooms, (p.2.map Member.id).Nodup) :
    ∀ p ∈ removeUserFromRooms rid uid rooms, (p.2.map Member.id).Nodup := by
  intro p hp
  cases hl : alookup rid rooms with
  | none =>
    rw [removeUser_eq_none hl] at hp
    exact h p hp
  | some users =>
    rw [removeUser_eq_some hl] at hp
    by_cases he : (users.filter (fun m => m.id ≠ uid)).isEmpty
    · rw [if_pos he] at hp
      exact h p (mem_aerase hp)
    · rw [if_neg he] at hp
      rcases mem_aset hp with hpe | hpm
      · rw [hpe]
        have hsub : ((users.filter (fun m => m.id ≠ uid)).map Member.id).Sublist
            (users.map Member.id) := (List.filter_sublist users).map Member.id
        exact hsub.nodup (h (rid, users) (alookup_mem hl))
      · exact h p hpm

theorem memberIn_removeUser (rid uid : String)
    {rooms : List (String × List Member)} (hkeys : (akeys rooms).Nodup)
    (r u : String) :
    MemberIn (removeUserFromRooms rid uid rooms) r u
      ↔ (MemberIn rooms r u ∧ ¬(r = rid ∧ u = uid)) := by
  cases hl : alookup rid rooms with
  | none =>
    rw [removeUser_eq_none hl]
    constructor
    · intro hm
      refine ⟨hm, ?_⟩
      rintro ⟨hr, hu⟩
      subst hr
      rcases hm with ⟨ms, hms, _⟩
      rw [hl] at hms
      cases hms
    · exact fun h => h.1
  | some users =>
    by_cases he : (users.filter (fun m => m.id ≠ uid)).isEmpty
    · rw [removeUser_eq_some hl, if_pos he]
      have hall : ∀ m ∈ users, m.id = uid := by
        intro m hm
        by_contra hne
        have hmf : m ∈ users.filter (fun m => m.id ≠ uid) :=
          List.mem_filter.mpr ⟨hm, by simpa using hne⟩
        rw [List.isEmpty_iff] at he
        rw [he] at hmf
        cases hmf
      by_cases hr : r = rid
      · subst hr
        constructor
        · rintro ⟨ms, hms, -⟩
          rw [alookup_aerase_self r hkeys] at hms
          cases hms
        · rintro ⟨⟨ms, hms, hu⟩, hneg⟩
          rw [hl] at hms
          injection hms with hms
          subst hms
          rcases List.mem_map.mp hu with ⟨m, hmm, hmid⟩
          exact absurd ⟨rfl, by rw [← hmid]; exact hall m hmm⟩ hneg
      · unfold MemberIn
        rw [alookup_aerase_ne hr rooms]
        have : ¬(r = rid ∧ u = uid) := fun hh => hr hh.1
        simp [this]
    · rw [removeUser_eq_some hl, if_neg he]
      by_cases hr : r = rid
      · subst hr
        unfold MemberIn
        rw [alookup_aset_self]
        constructor
        · rintro ⟨ms, hms, hu⟩
          injection hms with hms
          rw [← hms] at hu
          rcases List.mem_map.mp hu with ⟨m, hmm, hmid⟩
          rcases List.mem_filter.mp hmm with ⟨hmm', hmne⟩
          refine ⟨⟨users, hl, List.mem_map.mpr ⟨m, hmm', hmid⟩⟩, ?_⟩
          rintro ⟨-, hu2⟩
          have hne : m.id ≠ uid := by simpa using hmne
          exact hne (by rw [hmid, hu2])
        · rintro ⟨⟨ms, hms, hu⟩, hneg⟩
          rw [hl] at hms
          injection hms with hms
          subst hms
          rcases List.mem_map.mp hu with ⟨m, hmm, hmid⟩
          refine ⟨_, rfl, List.mem_map.mpr
            ⟨m, List.mem_filter.mpr ⟨hmm, ?_⟩, hmid⟩⟩
          have hne : m.id ≠ uid := by
            intro hmeq
            exact hneg ⟨rfl, by rw [← hmid, hmeq]⟩
          simpa using hne
      · unfold MemberIn
        rw [alookup_aset_ne hr]
        have : ¬(r = rid ∧ u = uid) := fun hh => hr hh.1
        simp [this]

theorem memberIn_room_iff (st : ServerState) (r : String) :
    ∀ u', MemberIn st.rooms r u'
      ↔ u' ∈ ((alookup r st.rooms).getD []).map Member.id := by
  intro u'
  cases hlk : alookup r st.rooms with
  | none =>
    simp only [hlk, Option.getD_none, List.map_nil, List.not_mem_nil, iff_false]
    rintro ⟨ms, hms, -⟩
    rw [hlk] at hms
    cases hms
  | some us =>
    simp only [hlk, Option.getD_some]
    constructor
    · rintro ⟨ms, hms, hu⟩
      rw [hlk] at hms
      injection hms with hms
      rw [hms]
      exact hu
    · intro hu
      exact ⟨us, hlk, hu⟩

theorem storeInv_join (st : ServerState) (r u sid : String) (now : Nat)
    (hInv : StoreInv st) (hr : r ≠ "") (hm : isMember st r u = false)
    (hs : alookup sid st.sessions = none) :
    StoreInv (joinRoom st r u sid now).1 := by
  have hnotmem : ¬ MemberIn st.rooms r u := by
    intro hmm
    rw [← isMember_iff] at hmm
    rw [hm] at hmm
    cases hmm
  have hnotpair : ¬ (r, u) ∈ sessPairs st.sessions :=
    fun hp => hnotmem ((hInv.corr r u).mpr hp)
  have husernot : ¬ u ∈ ((alookup r st.rooms).getD []).map Member.id :=
    fun hu => hnotmem ((memberIn_room_iff st r u).mpr hu)
  have hany : (((alookup r st.rooms).getD []).any (fun m => m.id = u)) = false := by
    rw [List.any_eq_false]
    intro m hmu
    simp only [decide_eq_true_eq]
    intro heq
    exact husernot (List.mem_map.mpr ⟨m, hmu, heq⟩)
  have hsess : (joinRoom st r u sid now).1.sessions
      = st.sessions ++ [(sid, ⟨u, r, now⟩)] := by
    simp [joinRoom, aset_of_alookup_none _ hs]
  have hrooms : (joinRoom st r u sid now).1.rooms
      = aset r (((alookup r st.rooms).getD []) ++ [⟨u, sid, now⟩]) st.rooms := by
    simp [joinRoom, hany]
  have husersN : ((((alookup r st.rooms).getD [])).map Member.id).Nodup := by
    cases hlk : alookup r st.rooms with
    | none => simp
    | some us =>
      simp only [Option.getD_some]
      exact hInv.membersNodup (r, us) (alookup_mem hlk)
  constructor
  · rw [hrooms]
    exact akeys_aset_nodup _ _ hInv.roomsKeysNodup
  · rw [hrooms]
    intro p hp
    rcases mem_aset hp with hpe | hpm
    · rw [hpe]
      simp only [List.map_append, List.map_cons, List.map_nil]
      rw [List.nodup_append]
      exact ⟨husersN, List.nodup_singleton _,
        by simpa using fun hu (hh : u ∈ ([u] : List String)) => husernot hu⟩
    · exact hInv.membersNodup p hpm
  · rw [hsess, sessPairs_append]
    rw [List.nodup_append]
    refine ⟨hInv.pairsNodup, List.nodup_singleton _, ?_⟩
    intro x hx
    rw [sessPairs_cons, sessPairs_nil]
    simp only [List.mem_singleton]
    intro hxe
    rw [hxe] at hx
    exact hnotpair hx
  · rw [hsess]
    intro p hp
    rcases List.mem_append.mp hp with hp1 | hp1
    · exact hInv.roomIdsNe p hp1
    · rw [List.mem_singleton] at hp1
      rw [hp1]
      exact hr
  · intro r' u'
    rw [hrooms, hsess, sessPairs_append, List.mem_append, sessPairs_cons,
      sessPairs_nil, List.mem_singleton]
    by_cases hr' : r' = r
    · subst hr'
      unfold MemberIn
      rw [alookup_aset_self]
      constructor
      · rintro ⟨ms, hms, hu⟩
        injection hms with hms
        rw [← hms] at hu
        simp only [List.map_append, List.map_cons, List.map_nil,
          List.mem_append, List.mem_singleton] at hu
        rcases hu with hu | hu
        · exact Or.inl ((hInv.corr r' u').mp ((memberIn_room_iff st r' u').mpr hu))
        · exact Or.inr (by rw [hu])
      · intro hcase
        refine ⟨_, rfl, ?_⟩
        simp only [List.map_append, List.map_cons, List.map_nil,
          List.mem_append, List.mem_singleton]
        rcases hcase with hp | hp
        · exact Or.inl ((memberIn_room_iff st r' u').mp ((hInv.corr r' u').mpr hp))
        · rw [Prod.mk.injEq] at hp
          exact Or.inr hp.2
    · unfold MemberIn
      rw [alookup_aset_ne hr']
      have hne : ¬ ((r', u') : String × String) = (r, u) := by
        rw [Prod.mk.injEq]
        exact fun hh => hr' hh.1
      rw [← MemberIn]
      rw [hInv.corr r' u']
      simp [hne]

theorem storeInv_leave (st : ServerState) (r u : String) (hInv : StoreInv st) :
    StoreInv (leaveRoom st r u) := by
  rw [leaveRoom_eq]
  have hiff : ∀ r' u', (((r', u') : String × String) ≠ (r, u))
      ↔ ¬(r' = r ∧ u' = u) := by
    intro r' u'
    rw [Ne, Prod.mk.injEq]
  constructor
  · exact removeUser_keysNodup r u hInv.roomsKeysNodup
  · exact removeUser_membersNodup r u hInv.membersNodup
  · show (sessPairs (eraseFirstSession u r st.sessions)).Nodup
    rw [sessPairs_eraseFirst]
    exact (List.erase_sublist _ _).nodup hInv.pairsNodup
  · intro p hp
    exact hInv.roomIdsNe p (mem_eraseFirstSession hp)
  · intro r' u'
    show MemberIn (removeUserFromRooms r u st.rooms) r' u'
      ↔ (r', u') ∈ sessPairs (eraseFirstSession u r st.sessions)
    rw [sessPairs_eraseFirst, memberIn_removeUser r u hInv.roomsKeysNodup,
      hInv.corr r' u', List.Nodup.mem_erase_iff hInv.pairsNodup]
    constructor
    · rintro ⟨h1, h2⟩
      exact ⟨(hiff r' u').mpr h2, h1⟩
    · rintro ⟨h2, h1⟩
      exact ⟨h1, (hiff r' u').mp h2⟩

theorem cleanupGo_spec (now : Nat) :
    ∀ (sess : List (String × Session)) (K : List (String × String))
      (rooms : List (String × List Member)),
    (akeys rooms).Nodup →
    (∀ p ∈ rooms, (p.2.map Member.id).Nodup) →
    (sessPairs sess ++ K).Nodup →
    (∀ p ∈ sess, p.2.roomId ≠ "") →
    (∀ r u, MemberIn rooms r u ↔ ((r, u) ∈ sessPairs sess ∨ (r, u) ∈ K)) →
    (cleanupGo now sess rooms).1
        = sess.filter (fun p => ¬ now - p.2.lastSeen > fiveMinutes) ∧
    (akeys (cleanupGo now sess rooms).2).Nodup ∧
    (∀ p ∈ (cleanupGo now sess rooms).2, (p.2.map Member.id).Nodup) ∧
    (∀ r u, MemberIn (cleanupGo now sess rooms).2 r u ↔
        ((r, u) ∈ sessPairs (cleanupGo now sess rooms).1 ∨ (r, u) ∈ K)) := by
  intro sess
  induction sess with
  | nil =>
    intro K rooms hkeys hmem hnodup hne hcorr
    exact ⟨rfl, hkeys, hmem, fun r u => by
      have := hcorr r u
      simpa [cleanupGo] using this⟩
  | cons p rest ih =>
    obtain ⟨sid, s⟩ := p
    intro K rooms hkeys hmem hnodup hne hcorr
    rw [sessPairs_cons, List.cons_append, List.nodup_cons] at hnodup
    by_cases hexp : now - s.lastSeen > fiveMinutes
    · have hsr : s.roomId ≠ "" := hne (sid, s) (List.mem_cons_self _ _)
      have hred : cleanupGo now ((sid, s) :: rest) rooms
          = cleanupGo now rest (removeUserFromRooms s.roomId s.userId rooms) := by
        simp [cleanupGo, hexp, hsr]
      have hcorr' : ∀ r u,
          MemberIn (removeUserFromRooms s.roomId s.userId rooms) r u
          ↔ ((r, u) ∈ sessPairs rest ∨ (r, u) ∈ K) := by
        intro r u
        rw [memberIn_removeUser _ _ hkeys, hcorr r u, sessPairs_cons]
        have hpair : (((r, u) : String × String) = (s.roomId, s.userId))
            ↔ (r = s.roomId ∧ u = s.userId) := by rw [Prod.mk.injEq]
        constructor
        · rintro ⟨h1, h2⟩
          rcases h1 with h1 | h1
          · rcases List.mem_cons.mp h1 with hh | hh
            · exact absurd (hpair.mp hh) h2
            · exact Or.inl hh
          · exact Or.inr h1
        · intro h1
          have hnot : ¬ ((r, u) : String × String) = (s.roomId, s.userId) := by
            intro heq
            apply hnodup.1
            rw [← heq]
            rcases h1 with h1 | h1
            · exact List.mem_append.mpr (Or.inl h1)
            · exact List.mem_append.mpr (Or.inr h1)
          refine ⟨h1.imp (fun hh => List.mem_cons_of_mem _ hh) id, ?_⟩
          intro hc
          exact hnot (hpair.mpr hc)
      rw [hred]
      have hres := ih K (removeUserFromRooms s.roomId s.userId rooms)
        (removeUser_keysNodup _ _ hkeys) (removeUser_membersNodup _ _ hmem)
        hnodup.2 (fun q hq => hne q (List.mem_cons_of_mem _ hq)) hcorr'
      refine ⟨?_, hres.2.1, hres.2.2.1, hres.2.2.2⟩
      rw [hres.1, List.filter_cons]
      simp [hexp]
    · have hred : cleanupGo now ((sid, s) :: rest) rooms
          = ((sid, s) :: (cleanupGo now rest rooms).1,
             (cleanupGo now rest rooms).2) := by
        simp [cleanupGo, hexp]
      have hperm : (sessPairs rest ++ (K ++ [(s.roomId, s.userId)])).Nodup := by
        have h1 : (((s.roomId, s.userId) : String × String)
            :: (sessPairs rest ++ K)).Nodup :=
          List.nodup_cons.mpr ⟨hnodup.1, hnodup.2⟩
        have hp2 : (sessPairs rest ++ (K ++ [(s.roomId, s.userId)])).Perm
            (((s.roomId, s.userId) : String × String) :: (sessPairs rest ++ K)) := by
          rw [← List.append_assoc]
          exact List.perm_append_singleton _ _
        exact hp2.symm.nodup h1
      have hcorr' : ∀ r u, MemberIn rooms r u
          ↔ ((r, u) ∈ sessPairs rest ∨ (r, u) ∈ K ++ [(s.roomId, s.userId)]) := by
        intro r u
        rw [hcorr r u, sessPairs_cons]
        simp only [List.mem_cons, List.mem_append, List.mem_singleton]
        tauto
      have hres := ih (K ++ [(s.roomId, s.userId)]) rooms hkeys hmem hperm
        (fun q hq => hne q (List.mem_cons_of_mem _ hq)) hcorr'
      rw [hred]
      refine ⟨?_, hres.2.1, hres.2.2.1, ?_⟩
      · show ((sid, s) :: (cleanupGo now rest rooms).1)
          = List.filter (fun p => ¬ now - p.2.lastSeen > fiveMinutes)
              ((sid, s) :: rest)
        rw [List.filter_cons]
        simp [hexp, hres.1]
      · intro r u
        show MemberIn (cleanupGo now rest rooms).2 r u
          ↔ ((r, u) ∈ sessPairs ((sid, s) :: (cleanupGo now rest rooms).1)
             ∨ (r, u) ∈ K)
        rw [hres.2.2.2 r u, sessPairs_cons]
        simp only [List.mem_cons, List.mem_append, List.mem_singleton]
        tauto

theorem storeInv_sweep (now : Nat) (st : ServerState) (hInv : StoreInv st) :
    StoreInv (cleanupOldSessions now st) ∧
    (cleanupOldSessions now st).sessions
      = st.sessions.filter (fun p => ¬ now - p.2.lastSeen > fiveMinutes) := by
  have h := cleanupGo_spec now st.sessions [] st.rooms hInv.roomsKeysNodup
    hInv.membersNodup (by simpa using hInv.pairsNodup) hInv.roomIdsNe
    (fun r u => by simpa using hInv.corr r u)
  have hsub : ((cleanupGo now st.sessions st.rooms).1).Sublist st.sessions := by
    rw [h.1]
    exact List.filter_sublist st.sessions
  refine ⟨⟨h.2.1, h.2.2.1, ?_, ?_, ?_⟩, h.1⟩
  · show (sessPairs (cleanupGo now st.sessions st.rooms).1).Nodup
    exact (hsub.map sessionPair).nodup hInv.pairsNodup
  · intro p hp
    exact hInv.roomIdsNe p (hsub.subset hp)
  · intro r u
    have := h.2.2.2 r u
    simpa using this

theorem sweep_all_unexpired (now : Nat) (st : ServerState) (hInv : StoreInv st) :
    ∀ p ∈ (cleanupOldSessions now st).sessions,
      ¬ now - p.2.lastSeen > fiveMinutes := by
  intro p hp
  rw [(storeInv_sweep now st hInv).2] at hp
  have := (List.mem_filter.mp hp).2
  simpa using this

theorem runPOps_append (st : ServerState) (ops : List POp) (op : POp) :
    runPOps st (ops ++ [op]) = applyPOp (runPOps st ops) op := by
  induction ops generalizing st with
  | nil => rfl
  | cons o os ih => simp [runPOps, ih]

theorem storeInv_init : StoreInv ServerState.init := by
  constructor
  · simp [ServerState.init, akeys]
  · intro p hp
    simp [ServerState.init] at hp
  · simp [ServerState.init, sessPairs]
  · intro p hp
    simp [ServerState.init] at hp
  · intro r u
    constructor
    · rintro ⟨ms, hms, -⟩
      simp [ServerState.init, alookup] at hms
    · intro h
      simp [ServerState.init, sessPairs] at h

theorem storeInv_runPOps (ops : List POp) :
    ∀ st, StoreInv st → legalOps st ops = true → StoreInv (runPOps st ops) := by
  induction ops with
  | nil =>
    intro st h _
    exact h
  | cons op rest ih =>
    intro st hInv hleg
    simp only [legalOps, Bool.and_eq_true] at hleg
    show StoreInv (runPOps (applyPOp st op) rest)
    refine ih _ ?_ hleg.2
    cases op with
    | join r u sid tnow =>
      have h1 := hleg.1
      simp only [Bool.and_eq_true, decide_eq_true_eq] at h1
      exact storeInv_join st r u sid tnow hInv h1.1.1 h1.1.2 h1.2
    | leave r u => exact storeInv_leave st r u hInv
    | sweep tnow => exact (storeInv_sweep tnow st hInv).1

/-- C4 counterexample: the sequence join(`u1`), rejoin(`u1`),
leave(`u1`) — all at time 0, nothing expired — leaves `list_members(r1)`
empty while `u1` still holds an unexpired session (`s2`): the rejoin added
a second session and `leave-room` deletes only the first matching one. -/
theorem rejoin_leave_breaks_member_session_match :
    getRoomUsers (runPOps ServerState.init
        [POp.join "r1" "u1" "s1" 0, POp.join "r1" "u1" "s2" 0,
         POp.leave "r1" "u1"]) "r1" = [] ∧
    hasUnexpiredSessionFor (runPOps ServerState.init
        [POp.join "r1" "u1" "s1" 0, POp.join "r1" "u1" "s2" 0,
         POp.leave "r1" "u1"]) "r1" "u1" 0 = true := by decide

/-- C4 corrected: for legal sequences of `join` / `leave` / `sweep` —
joins only of participants not currently listed in the room, with fresh
session ids — the member set of `get-room-users` agrees exactly with the
set of participants holding a session; immediately after a sweep at the
current time this is exactly the set of participants with an *unexpired*
session.  With rejoins of an already-present participant the equality
fails (see the counterexample). -/
theorem legal_members_match_sessions (ops : List POp) (r : String) (now : Nat)
    (hleg : legalOps ServerState.init ops = true) :
    (∀ u, isMember (runPOps ServerState.init ops) r u
        = hasSessionFor (runPOps ServerState.init ops) r u) ∧
    (∀ u, isMember (runPOps ServerState.init (ops ++ [POp.sweep now])) r u
        = hasUnexpiredSessionFor
            (runPOps ServerState.init (ops ++ [POp.sweep now])) r u now) := by
  have hInv := storeInv_runPOps ops ServerState.init storeInv_init hleg
  constructor
  · intro u
    rw [Bool.eq_iff_iff, isMember_iff, hasSessionFor_iff]
    exact hInv.corr r u
  · intro u
    rw [runPOps_append]
    show isMember (cleanupOldSessions now (runPOps ServerState.init ops)) r u
      = hasUnexpiredSessionFor
          (cleanupOldSessions now (runPOps ServerState.init ops)) r u now
    rw [hasUnexpired_eq_hasSession _ _ _ _
      (sweep_all_unexpired now _ hInv)]
    rw [Bool.eq_iff_iff, isMember_iff, hasSessionFor_iff]
    exact ((storeInv_sweep now _ hInv).1).corr r u

/-- Witness for C4: `u1` joins, `u2` joins, `u1` leaves — a legal
(rejoin-free) sequence — checked for `u2` in room `r1`, with a final sweep
at time 0. -/
theorem legal_members_match_sessions_witness :
    legalOps ServerState.init
        [POp.join "r1" "u1" "s1" 0, POp.join "r1" "u2" "s2" 0,
         POp.leave "r1" "u1"] = true ∧
    isMember (runPOps ServerState.init
        [POp.join "r1" "u1" "s1" 0, POp.join "r1" "u2" "s2" 0,
         POp.leave "r1" "u1"]) "r1" "u2"
      = hasSessionFor (runPOps ServerState.init
        [POp.join "r1" "u1" "s1" 0, POp.join "r1" "u2" "s2" 0,
         POp.leave "r1" "u1"]) "r1" "u2" ∧
    isMember (runPOps ServerState.init
        ([POp.join "r1" "u1" "s1" 0, POp.join "r1" "u2" "s2" 0,
          POp.leave "r1" "u1"] ++ [POp.sweep 0])) "r1" "u2"
      = hasUnexpiredSessionFor (runPOps ServerState.init
        ([POp.join "r1" "u1" "s1" 0, POp.join "r1" "u2" "s2" 0,
          POp.leave "r1" "u1"] ++ [POp.sweep 0])) "r1" "u2" 0 :=
  ⟨by decide,
   (legal_members_match_sessions
      [POp.join "r1" "u1" "s1" 0, POp.join "r1" "u2" "s2" 0,
       POp.leave "r1" "u1"] "r1" 0 (by decide)).1 "u2",
   (legal_members_match_sessions
      [POp.join "r1" "u1" "s1" 0, POp.join "r1" "u2" "s2" 0,
       POp.leave "r1" "u1"] "r1" 0 (by decide)).2 "u2"⟩

end WebRTCApp
